import Mathlib

/-!
Shallow embedding of the column-inference and data-preparation pipeline of
the Coffee Shop Sales dashboard (source file `visdattubes.py`): the Column
Resolver (source lines 117-136), the Feature Deriver (lines 140-167) and
the Aggregator (lines 199-218), together with theorems settling the frozen
claims about them.

Modelling conventions:
* cell values are modelled by the inductive type `Value` (a missing value,
  a string, an exact integer number, or a date-typed cell);
* the pandas date parser `pd.to_datetime(..., dayfirst=True, errors=coerce)`
  is modelled for numeric day-first dates `D/M/Y` and `D-M-Y`; any other
  value coerces to `none`, exactly as `errors=coerce` never raises;
* `pandas.groupby` sorts group keys ascending and drops null keys
  (its defaults `sort=True`, `dropna=True`); the source calls `sort_values`
  with its default `kind='quicksort'`, which pandas documents as not
  stable, so its contract guarantees only a permutation of the groups that
  is non-strictly descending in the sort column — the file realises it by
  an executable comparison sort, and no theorem relies on the order that
  realisation happens to give tied sums;
* Python `int(...)` applied to a string is modelled by `pyIntOfChars`:
  optional surrounding whitespace, an optional sign, a nonempty run of
  ASCII digits; anything else raises `ValueError`;
* string manipulation is carried out on the character list underlying the
  string, so that every definition evaluates inside the kernel.
-/

/-- Cell values of the tabular data: a missing value (pandas `NaN`/`NaT`),
a string, an integer number, or a date-typed cell (year, month, day).
Numeric amounts are modelled with exact integer arithmetic. -/
inductive Value where
  | null : Value
  | str : String → Value
  | num : Int → Value
  | date : Nat → Nat → Nat → Value
deriving DecidableEq, Repr

/-- `pd.notna`: everything except the missing marker is non-null. -/
def Value.notna : Value → Bool
  | .null => false
  | _ => true

/-- Zero-pad a numeral to two digits (for the Python `str()` of timestamps). -/
def pad2 (n : Nat) : String :=
  if n < 10 then "0" ++ toString n else toString n

/-- Zero-pad a numeral to four digits. -/
def pad4 (n : Nat) : String :=
  if n < 10 then "000" ++ toString n
  else if n < 100 then "00" ++ toString n
  else if n < 1000 then "0" ++ toString n
  else toString n

/-- Python `str(x)` on a cell value: strings print themselves, numbers print
their decimal form, the missing marker prints as `nan`, and a timestamp
prints as `YYYY-MM-DD 00:00:00`. -/
def Value.pyStr : Value → String
  | .null => "nan"
  | .str s => s
  | .num n => toString n
  | .date y m d => pad4 y ++ "-" ++ pad2 m ++ "-" ++ pad2 d ++ " 00:00:00"

/-- Split a character list at every occurrence of the separator `c`
(Python `s.split(c)`): the result is the list of (possibly empty) chunks
between separators, and is never empty. -/
def splitOnChar (c : Char) : List Char → List (List Char)
  | [] => [[]]
  | a :: t =>
    match splitOnChar c t with
    | [] => if a = c then [[], []] else [[a]]
    | h :: r => if a = c then [] :: h :: r else (a :: h) :: r

/-- Whitespace recognised by Python's `int()`/`strip()`. -/
def isSpaceChar (c : Char) : Bool :=
  c = ' ' || c = '\t' || c = '\n' || c = '\r'

/-- Strip leading and trailing whitespace from a character list. -/
def trimChars (l : List Char) : List Char :=
  ((l.dropWhile isSpaceChar).reverse.dropWhile isSpaceChar).reverse

/-- Parse a nonempty run of ASCII digits as a natural number. -/
def digitsToNat? (l : List Char) : Option Nat :=
  if !l.isEmpty && l.all Char.isDigit then
    some (l.foldl (fun n c => n * 10 + (c.toNat - 48)) 0)
  else none

/-- Python `int(s)` for a string (given as its character list), as an
`Option`: surrounding whitespace is ignored, one optional sign is allowed,
and the rest must be a nonempty run of decimal digits; `none` models the
`ValueError` raise. -/
def pyIntOfChars (l : List Char) : Option Int :=
  match trimChars l with
  | '-' :: rest => (digitsToNat? rest).map (fun n => -(n : Int))
  | '+' :: rest => (digitsToNat? rest).map (fun n => (n : Int))
  | t => (digitsToNat? t).map (fun n => (n : Int))

/-- Substring test on character lists (Python `pat in s`). -/
def containsSub (l pat : List Char) : Bool :=
  l.tails.any (fun t => pat.isPrefixOf t)

/-- Lower-case the characters of a string (Python `s.lower()`). -/
def lowerChars (s : String) : List Char :=
  s.data.map Char.toLower

/-! ## Column Resolver (source lines 117-136) -/

/-- Trigger predicate for the Date role: `'date' in col.lower()`. -/
def isDateName (c : String) : Bool :=
  containsSub (lowerChars c) "date".data

/-- Trigger predicate for the Time role: `'time' in col.lower()`. -/
def isTimeName (c : String) : Bool :=
  containsSub (lowerChars c) "time".data

/-- Trigger predicate for the Location role:
`'location' in col.lower() or 'store' in col.lower()`. -/
def isLocationName (c : String) : Bool :=
  containsSub (lowerChars c) "location".data || containsSub (lowerChars c) "store".data

/-- Trigger predicate for the Category role:
`'category' in col.lower() or 'product' in col.lower()`. -/
def isCategoryName (c : String) : Bool :=
  containsSub (lowerChars c) "category".data || containsSub (lowerChars c) "product".data

/-- Trigger predicate for the Amount role:
`'bill' or 'total' or 'amount' or 'price' in col.lower()`. -/
def isAmountName (c : String) : Bool :=
  containsSub (lowerChars c) "bill".data || containsSub (lowerChars c) "total".data ||
  containsSub (lowerChars c) "amount".data || containsSub (lowerChars c) "price".data

/-- The five resolved role columns (source variables `date_col`, `time_col`,
`location_col`, `category_col`, `bill_col`). -/
structure ColumnRoles where
  date_col : String
  time_col : String
  location_col : String
  category_col : String
  bill_col : String
deriving DecidableEq, Repr

/-- The Column Resolver (source lines 117-136): filter the column names by
each role's trigger predicate, take the first match, and otherwise fall
back positionally (column 0, 1, 2, 3, or the last column, degrading to
column 0 when the table is too narrow). -/
def resolve (cols : List String) : ColumnRoles :=
  let date_cols := cols.filter isDateName
  let time_cols := cols.filter isTimeName
  let location_cols := cols.filter isLocationName
  let category_cols := cols.filter isCategoryName
  let amount_cols := cols.filter isAmountName
  { date_col := date_cols.headD (cols.headD "")
    time_col := time_cols.headD
      (if cols.length > 1 then cols.getD 1 "" else cols.headD "")
    location_col := location_cols.headD
      (if cols.length > 2 then cols.getD 2 "" else cols.headD "")
    category_col := category_cols.headD
      (if cols.length > 3 then cols.getD 3 "" else cols.headD "")
    bill_col := amount_cols.headD (cols.getLastD "") }

/-! ## Feature Deriver pieces (source lines 140-167) -/

/-- The hour-extraction lambda (source line 150):
`int(str(x).split(':')[0]) if pd.notna(x) and ':' in str(x) else 12`.
The `int(...)` call raises `ValueError` when the text before the first
colon is not an integer literal; this is modelled by the `.error` branch. -/
def extractHour (x : Value) : Except String Int :=
  if x.notna && x.pyStr.data.contains ':' then
    match pyIntOfChars ((splitOnChar ':' x.pyStr.data).headD []) with
    | some n => Except.ok n
    | none => Except.error "ValueError"
  else Except.ok 12

/-- The anomaly-correction rule (source line 157):
`data.loc[data[bill_col] == 360, bill_col] = 36` acting on one cell. -/
def correctAnomaly (v : Value) : Value :=
  if v = Value.num 360 then Value.num 36 else v

/-- A parsed calendar date (the `transaction_date` column's element type). -/
structure PDate where
  year : Nat
  month : Nat
  day : Nat
deriving DecidableEq, Repr

/-- Day-first date parsing of a string, modelling
`pd.to_datetime(s, dayfirst=True, errors=coerce)` on the numeric forms
`D/M/Y` and `D-M-Y`; any other shape coerces to `none`. -/
def parseDateString (s : String) : Option PDate :=
  let t := trimChars s.data
  let parts := if t.contains '/' then splitOnChar '/' t else splitOnChar '-' t
  match parts with
  | [a, b, c] =>
    match digitsToNat? a, digitsToNat? b, digitsToNat? c with
    | some d, some m, some y =>
      if 1 ≤ d && d ≤ 31 && 1 ≤ m && m ≤ 12 && 1000 ≤ y then
        some ⟨y, m, d⟩
      else none
    | _, _, _ => none
  | _ => none

/-- Date parsing of a cell (source line 142): date-typed cells pass through,
strings are parsed day-first, everything else coerces to `none`. -/
def parseDateVal : Value → Option PDate
  | .date y m d => some ⟨y, m, d⟩
  | .str s => parseDateString s
  | _ => none

/-! ## Calendar feature derivation (source lines 143, 160-167) -/

/-- Zeller's congruence: index of the weekday of a Gregorian date, with
0 = Saturday, 1 = Sunday, ..., 6 = Friday. -/
def zellerIdx (y m d : Nat) : Nat :=
  let ym := if m < 3 then (y - 1, m + 12) else (y, m)
  let K := ym.1 % 100
  let J := ym.1 / 100
  (d + 13 * (ym.2 + 1) / 5 + K + K / 4 + J / 4 + 5 * J) % 7

/-- `Series.dt.day_name()` for one date. -/
def weekdayName (y m d : Nat) : String :=
  ["Saturday", "Sunday", "Monday", "Tuesday",
   "Wednesday", "Thursday", "Friday"].getD (zellerIdx y m d) ""

/-- The twelve English month names, in calendar order. -/
def monthNames12 : List String :=
  ["January", "February", "March", "April", "May", "June", "July",
   "August", "September", "October", "November", "December"]

/-- `Series.dt.month_name()` for one date: the name of month `m` (1-12). -/
def monthNameOf (m : Nat) : String :=
  monthNames12.getD (m - 1) ""

/-- The source's weekday vocabulary `weekly_order` (source line 163). -/
def weekly_order : List String :=
  ["Monday", "Tuesday", "Wednesday", "Thursday", "Friday", "Saturday", "Sunday"]

/-- The source's six-month vocabulary `month_order` (source line 166). -/
def month_order : List String :=
  ["January", "February", "March", "April", "May", "June"]

/-- `pd.Categorical(values, categories=cats, ordered=True)` acting on one
(possibly missing) value: a value outside the category vocabulary is
replaced by the missing marker `none`. -/
def applyCat (cats : List String) (v : Option String) : Option String :=
  v.bind (fun s => if s ∈ cats then some s else none)

/-! ## Tables and enrichment (source lines 140-167) -/

/-- A raw uploaded table: an ordered list of column names and a list of
rows, each row listing its cells in column order. -/
structure RawTable where
  columns : List String
  rows : List (List Value)
deriving DecidableEq, Repr

/-- Look up the cell of a row under a column name (pandas `data[col]` for
one row): the first column of that name; a missing column or a short row
reads as the missing marker. -/
def cellAt (cols : List String) (row : List Value) (c : String) : Value :=
  match cols.findIdx? (fun x => x == c) with
  | some i => row.getD i Value.null
  | none => Value.null

/-- Errors of the preprocessing block: the fatal missing-date-column check
(source lines 144-146) and a `ValueError` escaping the hour lambda
(source line 150), both of which halt the pipeline (`st.stop`). -/
inductive PrepError where
  | missingDateColumn : String → PrepError
  | valueError : String → PrepError
deriving DecidableEq, Repr

/-- One enriched row: the original cells (with the Amount anomaly
corrected) plus the derived columns `transaction_date`, `weekday`,
`Day Name` (ordered categorical) and `Month Name` (ordered categorical),
and the extracted `Hour`. -/
structure EnrichedRow where
  cells : List Value
  transaction_date : Option PDate
  weekday : Option String
  dayName : Option String
  monthName : Option String
  hour : Int
deriving DecidableEq, Repr

/-- Derivation of the `Month Name` column for one row (source lines 161
and 166-167): the month name of the parsed date, null-propagating, then
restricted to the six-month vocabulary by `pd.Categorical`. -/
def deriveMonthName (pd : Option PDate) : Option String :=
  applyCat month_order (pd.map (fun d => monthNameOf d.month))

/-- Derivation of the `Day Name` column for one row (source lines 143,
160 and 163-164). -/
def deriveDayName (pd : Option PDate) : Option String :=
  applyCat weekly_order (pd.map (fun d => weekdayName d.year d.month d.day))

/-- The `Hour` column step for one row (source lines 149-153): apply the
hour-extraction lambda when the Time column is present (propagating its
`ValueError` as a preparation failure), and default to hour 12 when the
Time column is absent. -/
def hourStep (cols : List String) (r : ColumnRoles) (row : List Value) :
    Except PrepError Int :=
  if r.time_col ∈ cols then
    match extractHour (cellAt cols row r.time_col) with
    | Except.ok n => Except.ok n
    | Except.error e => Except.error (PrepError.valueError e)
  else Except.ok 12

/-- The pure part of row enrichment, once the hour is known: parse the
date (coercing failures to null), derive the calendar columns, and
correct the Amount anomaly in place. -/
def mkEnrichedRow (cols : List String) (r : ColumnRoles) (row : List Value)
    (h : Int) : EnrichedRow :=
  let pd := parseDateVal (cellAt cols row r.date_col)
  { cells := match cols.findIdx? (fun x => x == r.bill_col) with
      | some i => row.set i (correctAnomaly (row.getD i Value.null))
      | none => row
    transaction_date := pd
    weekday := pd.map (fun d => weekdayName d.year d.month d.day)
    dayName := deriveDayName pd
    monthName := deriveMonthName pd
    hour := h }

/-- Enrich a single row (the per-row action of source lines 140-167):
the hour step may fail the whole row; otherwise the row is retained with
its derived columns. -/
def enrichRow (cols : List String) (r : ColumnRoles) (row : List Value) :
    Except PrepError EnrichedRow :=
  match hourStep cols r row with
  | Except.error e => Except.error e
  | Except.ok h => Except.ok (mkEnrichedRow cols r row h)

/-- Map a fallible function over a list, stopping at the first error
(the effect of applying the preprocessing block to every row inside the
single `try`). -/
def exceptMap (f : α → Except ε β) : List α → Except ε (List β)
  | [] => Except.ok []
  | a :: l =>
    match f a with
    | Except.error e => Except.error e
    | Except.ok b =>
      match exceptMap f l with
      | Except.error e => Except.error e
      | Except.ok bs => Except.ok (b :: bs)

/-- The Feature Deriver (source lines 140-167): fail with the
`MissingDateColumn` preparation error when the resolved Date column is
absent (source lines 141 and 144-146), otherwise enrich every row. -/
def enrich (t : RawTable) (r : ColumnRoles) : Except PrepError (List EnrichedRow) :=
  if r.date_col ∈ t.columns then exceptMap (enrichRow t.columns r) t.rows
  else Except.error (PrepError.missingDateColumn r.date_col)

/-! ## Orders used by `groupby` (key sort) and `sort_values` -/

/-- Chronological order on parsed dates (the ascending key order of
`groupby('transaction_date')`). -/
def PDate.dle (a b : PDate) : Prop :=
  a.year < b.year ∨ (a.year = b.year ∧
    (a.month < b.month ∨ (a.month = b.month ∧ a.day ≤ b.day)))

instance : DecidableRel PDate.dle := fun a b => by
  unfold PDate.dle
  exact inferInstance

instance : IsTotal PDate PDate.dle := by
  constructor
  intro a b
  unfold PDate.dle
  omega

instance : IsTrans PDate PDate.dle := by
  constructor
  intro a b c
  unfold PDate.dle
  omega

/-- Constructor rank of a cell value, used to order values of different
shapes against each other. -/
def Value.rank : Value → Nat
  | .null => 0
  | .num _ => 1
  | .str _ => 2
  | .date _ _ _ => 3

/-- Total order on cell values (the ascending key order pandas `groupby`
uses for group keys): same-shape values compare componentwise, values of
different shapes compare by rank. -/
def Value.leb : Value → Value → Bool
  | .num x, .num y => decide (x ≤ y)
  | .str x, .str y => decide (x ≤ y)
  | .date y1 m1 d1, .date y2 m2 d2 =>
    decide (y1 < y2 ∨ (y1 = y2 ∧ (m1 < m2 ∨ (m1 = m2 ∧ d1 ≤ d2))))
  | a, b => decide (a.rank ≤ b.rank)

/-- The ascending key order on values, as a relation. -/
def Value.vle (a b : Value) : Prop := Value.leb a b = true

instance : DecidableRel Value.vle := fun a b =>
  inferInstanceAs (Decidable (Value.leb a b = true))

instance : IsTotal Value Value.vle := by
  constructor
  intro a b
  cases a <;> cases b <;>
    simp only [Value.vle, Value.leb, Value.rank, decide_eq_true_eq] <;>
    first
      | omega
      | exact le_total _ _

instance : IsTrans Value Value.vle := by
  constructor
  intro a b c hab hbc
  cases a <;> cases b <;> cases c <;>
    simp only [Value.vle, Value.leb, Value.rank, decide_eq_true_eq] at hab hbc ⊢ <;>
    first
      | omega
      | exact le_trans hab hbc

/-- The descending `sort_values` comparison: `p` may precede `q` when `q`'s
summed amount does not exceed `p`'s.  `List.insertionSort` with this
comparison is one executable realisation of
`sort_values(ascending=False)`; the source's default sort kind is
documented as not stable, so only the permutation and descending-order
properties of the realisation reflect guarantees of the program — the
order it gives tied sums does not, and no theorem below uses it. -/
def amtDesc {α : Type} (amt : α → Int) (p q : α) : Prop :=
  amt q ≤ amt p

instance {α : Type} (amt : α → Int) : DecidableRel (amtDesc amt) := fun p q =>
  inferInstanceAs (Decidable (amt q ≤ amt p))

/-! ## Aggregator (source lines 178-218) -/

/-- The location filter of the sidebar: `All Locations` or one value. -/
inductive LocFilter where
  | all : LocFilter
  | only : Value → LocFilter
deriving DecidableEq, Repr

/-- The category filter of the sidebar: `All Categories` or one value. -/
inductive CatFilter where
  | all : CatFilter
  | only : Value → CatFilter
deriving DecidableEq, Repr

/-- The sidebar filter state: location, category and selected hour. -/
structure FilterState where
  location : LocFilter
  category : CatFilter
  hour : Int
deriving DecidableEq, Repr

/-- Numeric reading of an Amount cell for summation; amounts are numeric
cells in the data this dashboard consumes. -/
def valNum : Value → Int
  | .num n => n
  | _ => 0

/-- The summed Amount of one enriched row (`data[bill_col]` for the row). -/
def amountOf (cols : List String) (r : ColumnRoles) (er : EnrichedRow) : Int :=
  valNum (cellAt cols er.cells r.bill_col)

/-- The Location cell of one enriched row. -/
def locCell (cols : List String) (r : ColumnRoles) (er : EnrichedRow) : Value :=
  cellAt cols er.cells r.location_col

/-- The Category cell of one enriched row. -/
def catCell (cols : List String) (r : ColumnRoles) (er : EnrichedRow) : Value :=
  cellAt cols er.cells r.category_col

/-- Restriction of the rows to the selected location, when one is set
(the `selected_location` branch of source lines 200-201 and 209-210). -/
def locFiltered (cols : List String) (r : ColumnRoles) (lf : LocFilter)
    (rows : List EnrichedRow) : List EnrichedRow :=
  match lf with
  | LocFilter.all => rows
  | LocFilter.only v => rows.filter (fun er => locCell cols r er == v)

/-- Restriction of the rows to the selected category, when one is set
(the `selected_category` branch of source lines 211-212). -/
def catFiltered (cols : List String) (r : ColumnRoles) (cf : CatFilter)
    (rows : List EnrichedRow) : List EnrichedRow :=
  match cf with
  | CatFilter.all => rows
  | CatFilter.only v => rows.filter (fun er => catCell cols r er == v)

/-- The row filter feeding the daily-revenue view (source lines 199-202):
restrict to the selected location (unless `All Locations`), then to the
selected hour. -/
def filterDaily (cols : List String) (r : ColumnRoles) (f : FilterState)
    (rows : List EnrichedRow) : List EnrichedRow :=
  (locFiltered cols r f.location rows).filter (fun er => er.hour == f.hour)

/-- The distinct non-null date keys of the daily groupby. -/
def dailyKeys (cols : List String) (r : ColumnRoles) (f : FilterState)
    (rows : List EnrichedRow) : List PDate :=
  ((filterDaily cols r f rows).filterMap (fun er => er.transaction_date)).dedup

/-- `DailyRevenueView` (source line 205):
`groupby('transaction_date')[bill_col].sum()` over the daily-filtered
rows — null date keys are dropped, keys are sorted ascending, and each
group's Amount cells are summed. -/
def dailySums (cols : List String) (r : ColumnRoles) (f : FilterState)
    (rows : List EnrichedRow) : List (PDate × Int) :=
  (List.insertionSort PDate.dle (dailyKeys cols r f rows)).map (fun k =>
    (k, (((filterDaily cols r f rows).filter
            (fun er => er.transaction_date == some k)).map
          (amountOf cols r)).sum))

/-- The row filter feeding the two bar charts (source lines 208-212):
restrict to the selected location and selected category, when set. -/
def filterBar (cols : List String) (r : ColumnRoles) (f : FilterState)
    (rows : List EnrichedRow) : List EnrichedRow :=
  catFiltered cols r f.category (locFiltered cols r f.location rows)

/-- The distinct non-null group keys of a `groupby` on one cell column. -/
def groupKeys (key : EnrichedRow → Value) (fr : List EnrichedRow) : List Value :=
  ((fr.map key).filter (fun v => !(v == Value.null))).dedup

/-- Group the filtered rows by one key cell and sum the Amount per group
(`groupby(key)[bill_col].sum().reset_index()`): null keys dropped, group
keys ascending. -/
def groupSumsBy (key : EnrichedRow → Value) (amt : EnrichedRow → Int)
    (fr : List EnrichedRow) : List (Value × Int) :=
  (List.insertionSort Value.vle (groupKeys key fr)).map (fun k =>
    (k, ((fr.filter (fun er => key er == k)).map amt).sum))

/-- `LocationView` (source line 215): group by the Location column and sum,
then `sort_values(by=bill_col, ascending=False)` with the default unstable
sort kind (see `amtDesc` for what carries over to theorems). -/
def locationSums (cols : List String) (r : ColumnRoles) (f : FilterState)
    (rows : List EnrichedRow) : List (Value × Int) :=
  List.insertionSort (amtDesc (fun p : Value × Int => p.2))
    (groupSumsBy (locCell cols r) (amountOf cols r) (filterBar cols r f rows))

/-- `CategoryView` (source line 218): group by the Category column and sum,
then `sort_values(by=bill_col, ascending=False)` with the default unstable
sort kind (see `amtDesc` for what carries over to theorems). -/
def categorySums (cols : List String) (r : ColumnRoles) (f : FilterState)
    (rows : List EnrichedRow) : List (Value × Int) :=
  List.insertionSort (amtDesc (fun p : Value × Int => p.2))
    (groupSumsBy (catCell cols r) (amountOf cols r) (filterBar cols r f rows))

/-! ## List helper lemmas -/

theorem headD_filter_mem (p : String → Bool) (cols : List String) (d : String)
    (hd : d ∈ cols) : (cols.filter p).headD d ∈ cols := by
  cases h : cols.filter p with
  | nil => simpa using hd
  | cons a t =>
    have ha : a ∈ cols.filter p := by
      rw [h]
      exact List.mem_cons_self a t
    simpa using (List.mem_filter.mp ha).1

theorem getD_mem {α : Type} (l : List α) (i : Nat) (d : α) (h : i < l.length) :
    l.getD i d ∈ l := by
  induction l generalizing i with
  | nil => simp at h
  | cons a t ih =>
    cases i with
    | zero => simp
    | succ n =>
      exact List.mem_cons_of_mem _ (ih n (by simpa using h))

theorem getLastD_mem {α : Type} (l : List α) (d : α) (h : l ≠ []) :
    l.getLastD d ∈ l := by
  induction l generalizing d with
  | nil => exact absurd rfl h
  | cons a t ih =>
    cases t with
    | nil => simp [List.getLastD]
    | cons b t2 =>
      exact List.mem_cons_of_mem a (ih a (by simp))

theorem headD_filter_singleton (p : String → Bool) (c : String) :
    ([c].filter p).headD c = c := by
  by_cases h : p c <;> simp [List.filter, h]

theorem filter_headD_eq_find (p : α → Bool) (l : List α) (d : α) :
    (l.filter p).headD d = (l.find? p).getD d := by
  induction l with
  | nil => rfl
  | cons a t ih =>
    by_cases h : p a <;> simp [List.filter_cons, List.find?_cons, h, ih]

/-! ## Claims about the Column Resolver -/

/-- Claim C2: for every nonempty sequence of column names the Column
Resolver returns a complete mapping of all five roles, each mapped to a
name present in the input sequence (it is a total function, so it never
fails or raises), and on a single-column input every role maps to that one
column. -/
theorem resolver_total_mapping :
    (∀ cols : List String, cols ≠ [] →
      (resolve cols).date_col ∈ cols ∧ (resolve cols).time_col ∈ cols ∧
      (resolve cols).location_col ∈ cols ∧ (resolve cols).category_col ∈ cols ∧
      (resolve cols).bill_col ∈ cols) ∧
    (∀ c : String, resolve [c] = ⟨c, c, c, c, c⟩) := by
  constructor
  · intro cols hne
    have hhead : cols.headD "" ∈ cols := by
      cases cols with
      | nil => exact absurd rfl hne
      | cons a t => exact List.mem_cons_self a t
    refine ⟨?_, ?_, ?_, ?_, ?_⟩
    · exact headD_filter_mem isDateName cols _ hhead
    · show (cols.filter isTimeName).headD
        (if cols.length > 1 then cols.getD 1 "" else cols.headD "") ∈ cols
      by_cases h : cols.length > 1
      · rw [if_pos h]
        exact headD_filter_mem isTimeName cols _ (getD_mem cols 1 "" h)
      · rw [if_neg h]
        exact headD_filter_mem isTimeName cols _ hhead
    · show (cols.filter isLocationName).headD
        (if cols.length > 2 then cols.getD 2 "" else cols.headD "") ∈ cols
      by_cases h : cols.length > 2
      · rw [if_pos h]
        exact headD_filter_mem isLocationName cols _ (getD_mem cols 2 "" h)
      · rw [if_neg h]
        exact headD_filter_mem isLocationName cols _ hhead
    · show (cols.filter isCategoryName).headD
        (if cols.length > 3 then cols.getD 3 "" else cols.headD "") ∈ cols
      by_cases h : cols.length > 3
      · rw [if_pos h]
        exact headD_filter_mem isCategoryName cols _ (getD_mem cols 3 "" h)
      · rw [if_neg h]
        exact headD_filter_mem isCategoryName cols _ hhead
    · exact headD_filter_mem isAmountName cols _ (getLastD_mem cols "" hne)
  · intro c
    show ColumnRoles.mk (([c].filter isDateName).headD c)
      (([c].filter isTimeName).headD c) (([c].filter isLocationName).headD c)
      (([c].filter isCategoryName).headD c) (([c].filter isAmountName).headD c) =
      ColumnRoles.mk c c c c c
    simp only [headD_filter_singleton]

/-- Witness for C2 at the concrete single column `["Price"]`. -/
theorem resolver_total_mapping_wit :
    (resolve ["Price"]).date_col ∈ ["Price"] ∧ resolve ["X"] = ⟨"X", "X", "X", "X", "X"⟩ :=
  ⟨(resolver_total_mapping.1 ["Price"] (by decide)).1,
   resolver_total_mapping.2 "X"⟩

/-- Claim C7: each role resolves to the first (left-to-right) column name
matching its case-insensitive triggers, with the positional fallbacks
Date to column 0, Time to column 1 (column 0 if only one column),
Location to column 2 (column 0 if fewer than 3), Category to column 3
(column 0 if fewer than 4), Amount to the last column; in particular the
all-unrecognizable columns A,B,C,D,E map positionally. -/
theorem resolver_first_match_and_fallback :
    (∀ (cols : List String) (h : cols ≠ []),
      (resolve cols).date_col = (cols.find? isDateName).getD (cols.head h) ∧
      (resolve cols).time_col = (cols.find? isTimeName).getD
        (if cols.length > 1 then cols.getD 1 "" else cols.head h) ∧
      (resolve cols).location_col = (cols.find? isLocationName).getD
        (if cols.length > 2 then cols.getD 2 "" else cols.head h) ∧
      (resolve cols).category_col = (cols.find? isCategoryName).getD
        (if cols.length > 3 then cols.getD 3 "" else cols.head h) ∧
      (resolve cols).bill_col = (cols.find? isAmountName).getD (cols.getLast h)) ∧
    resolve ["A", "B", "C", "D", "E"] = ⟨"A", "B", "C", "D", "E"⟩ := by
  constructor
  · intro cols h
    have hhead : cols.headD "" = cols.head h := by
      cases cols with
      | nil => exact absurd rfl h
      | cons a t => rfl
    have hlast : cols.getLastD "" = cols.getLast h := by
      rw [List.getLastD_eq_getLast?, List.getLast?_eq_getLast cols h]
      rfl
    refine ⟨?_, ?_, ?_, ?_, ?_⟩ <;>
      simp only [resolve, filter_headD_eq_find, hhead, hlast]
  · decide

/-- Witness for C7: the trigger-matching path and the fallback path at
concrete column lists. -/
theorem resolver_first_match_and_fallback_wit :
    (resolve ["Price", "When Date"]).date_col = "When Date" ∧
    (resolve ["Price", "When Date"]).bill_col = "Price" := by
  have h := resolver_first_match_and_fallback.1 ["Price", "When Date"] (by decide)
  exact ⟨h.1.trans (by decide), h.2.2.2.2.trans (by decide)⟩

/-! ## Claims about hour extraction (C1) -/

/-- Claim C1 counterexample: the hour derived from the time string
`25:00` is 25, outside `[0,23]`; moreover the string `ab:00` makes the
hour step raise a `ValueError` rather than degrade to a default. -/
theorem hour_bound_cex :
    extractHour (Value.str "25:00") = Except.ok 25 ∧
    ¬((0 : Int) ≤ 25 ∧ (25 : Int) ≤ 23) ∧
    extractHour (Value.str "ab:00") = Except.error "ValueError" :=
  ⟨rfl, by decide, rfl⟩

/-- Claim C1 as amended: the hour step stringifies the value; when the
value is missing or contains no colon the hour is 12; when it contains a
colon, the text before the first colon is parsed by Python `int`, the
result (any integer, not clamped to `[0,23]`) becomes the hour, and a
non-integer text raises `ValueError` (fatal for the whole preprocessing
block, not absorbed per value). -/
theorem hour_extraction_amended (x : Value) :
    (x.notna = false ∨ x.pyStr.data.contains ':' = false →
      extractHour x = Except.ok 12) ∧
    (∀ n : Int, x.notna = true → x.pyStr.data.contains ':' = true →
      pyIntOfChars ((splitOnChar ':' x.pyStr.data).headD []) = some n →
      extractHour x = Except.ok n) ∧
    (x.notna = true → x.pyStr.data.contains ':' = true →
      pyIntOfChars ((splitOnChar ':' x.pyStr.data).headD []) = none →
      extractHour x = Except.error "ValueError") := by
  refine ⟨?_, ?_, ?_⟩
  · intro h
    cases hx : x.notna with
    | false =>
      unfold extractHour
      rw [hx]
      rfl
    | true =>
      rcases h with h | h
      · exact absurd hx (by rw [h]; exact Bool.false_ne_true)
      · unfold extractHour
        rw [hx, h]
        rfl
  · intro n h1 h2 hp
    unfold extractHour
    rw [h1, h2, hp]
    rfl
  · intro h1 h2 hp
    unfold extractHour
    rw [h1, h2, hp]
    rfl

/-- Witness for the amended C1 at the concrete inputs `8:30` (parsed
hour 8), a missing value (default 12) and `"morning"` (no colon,
default 12). -/
theorem hour_extraction_amended_wit :
    extractHour (Value.str "8:30") = Except.ok 8 ∧
    extractHour Value.null = Except.ok 12 ∧
    extractHour (Value.str "morning") = Except.ok 12 :=
  ⟨(hour_extraction_amended (Value.str "8:30")).2.1 8 (by decide) (by decide) (by decide),
   (hour_extraction_amended Value.null).1 (Or.inl (by decide)),
   (hour_extraction_amended (Value.str "morning")).1 (Or.inr (by decide))⟩

/-! ## Claim about the anomaly correction (C3) -/

/-- Claim C3: the anomaly correction rewrites the numeric Amount value 360
to 36, leaves every other cell unchanged, and is idempotent, both on one
cell and mapped over a whole Amount column. -/
theorem anomaly_correction :
    correctAnomaly (Value.num 360) = Value.num 36 ∧
    (∀ v : Value, v ≠ Value.num 360 → correctAnomaly v = v) ∧
    (∀ v : Value, correctAnomaly (correctAnomaly v) = correctAnomaly v) ∧
    (∀ l : List Value, (l.map correctAnomaly).map correctAnomaly = l.map correctAnomaly) := by
  have hid : ∀ v : Value, correctAnomaly (correctAnomaly v) = correctAnomaly v := by
    intro v
    by_cases h : v = Value.num 360 <;> simp [correctAnomaly, h]
  refine ⟨rfl, ?_, hid, ?_⟩
  · intro v h
    simp [correctAnomaly, h]
  · intro l
    rw [List.map_map]
    exact List.map_congr_left (fun a _ => hid a)

/-- Witness for C3: a cell different from 360 is left unchanged. -/
theorem anomaly_correction_wit :
    Value.num 15 ≠ Value.num 360 ∧ correctAnomaly (Value.num 15) = Value.num 15 :=
  ⟨by decide, anomaly_correction.2.1 (Value.num 15) (by decide)⟩

/-! ## Claims about the month vocabulary (C6) -/

/-- A one-row table whose transaction date falls in July 2024. -/
def julyTable : RawTable :=
  { columns := ["Date", "Time", "Location", "Category", "Total"]
    rows := [[Value.str "01/07/2024", Value.str "08:00", Value.str "L",
              Value.str "C", Value.num 5]] }

/-- The enriched row the pipeline produces for `julyTable`. -/
def julyRow : EnrichedRow :=
  { cells := [Value.str "01/07/2024", Value.str "08:00", Value.str "L",
              Value.str "C", Value.num 5]
    transaction_date := some ⟨2024, 7, 1⟩
    weekday := some "Monday"
    dayName := some "Monday"
    monthName := none
    hour := 8 }

/-- Claim C6 counterexample: a July date parses successfully, its month
name is `July`, yet after the six-month `pd.Categorical` restriction the
`Month Name` cell is null — out-of-vocabulary months are turned into
null, not kept as incomparable values. -/
theorem month_vocab_cex :
    enrich julyTable (resolve julyTable.columns) = Except.ok [julyRow] ∧
    julyRow.transaction_date = some ⟨2024, 7, 1⟩ ∧
    monthNameOf 7 = "July" ∧
    julyRow.monthName = none :=
  ⟨rfl, rfl, rfl, rfl⟩

/-- Claim C6 as amended: the month-name derivation is null-propagating,
maps months January through June to their names, and maps every month
outside the six-month vocabulary (July through December in particular) to
null, because `pd.Categorical` replaces out-of-vocabulary values with the
missing marker. -/
theorem month_vocab_amended (pd : Option PDate) :
    (pd = none → deriveMonthName pd = none) ∧
    (∀ d : PDate, pd = some d → 1 ≤ d.month → d.month ≤ 6 →
      deriveMonthName pd = some (monthNameOf d.month)) ∧
    (∀ d : PDate, pd = some d → 7 ≤ d.month → deriveMonthName pd = none) := by
  refine ⟨?_, ?_, ?_⟩
  · rintro rfl
    rfl
  · rintro d rfl h1 h2
    obtain ⟨y, m, dd⟩ := d
    simp only at h1 h2
    interval_cases m <;> rfl
  · rintro d rfl h7
    obtain ⟨y, m, dd⟩ := d
    simp only at h7
    by_cases h12 : m ≤ 12
    · interval_cases m <;> rfl
    · have hname : monthNameOf m = "" := by
        unfold monthNameOf
        exact List.getD_eq_default _ _ (by simp [monthNames12]; omega)
      show applyCat month_order (some (monthNameOf m)) = none
      rw [hname]
      rfl

/-- Witness for the amended C6: March stays `March`, a missing date
propagates, and October becomes null. -/
theorem month_vocab_amended_wit :
    deriveMonthName (some ⟨2024, 3, 15⟩) = some "March" ∧
    deriveMonthName none = none ∧
    deriveMonthName (some ⟨2023, 10, 2⟩) = none := by
  refine ⟨?_, (month_vocab_amended none).1 rfl, ?_⟩
  · have h := (month_vocab_amended (some ⟨2024, 3, 15⟩)).2.1 ⟨2024, 3, 15⟩ rfl
      (by decide) (by decide)
    simpa using h
  · exact (month_vocab_amended (some ⟨2023, 10, 2⟩)).2.2 ⟨2023, 10, 2⟩ rfl (by decide)

/-! ## Lemmas about `exceptMap` and `enrichRow` -/

theorem exceptMap_ok_length {α β ε : Type} (f : α → Except ε β) (l : List α)
    (out : List β) (h : exceptMap f l = Except.ok out) : out.length = l.length := by
  induction l generalizing out with
  | nil =>
    cases h
    rfl
  | cons a t ih =>
    unfold exceptMap at h
    cases hf : f a with
    | error e =>
      rw [hf] at h
      exact Except.noConfusion h
    | ok b =>
      rw [hf] at h
      cases ht : exceptMap f t with
      | error e =>
        rw [ht] at h
        exact Except.noConfusion h
      | ok bs =>
        rw [ht] at h
        cases h
        simp [ih bs ht]

theorem exceptMap_ok_get {α β ε : Type} (f : α → Except ε β) (l : List α)
    (out : List β) (h : exceptMap f l = Except.ok out) :
    ∀ (i : Nat) (h1 : i < l.length) (h2 : i < out.length),
      f (l.get ⟨i, h1⟩) = Except.ok (out.get ⟨i, h2⟩) := by
  induction l generalizing out with
  | nil =>
    intro i h1 h2
    simp at h1
  | cons a t ih =>
    unfold exceptMap at h
    cases hf : f a with
    | error e =>
      rw [hf] at h
      exact Except.noConfusion h
    | ok b =>
      rw [hf] at h
      cases ht : exceptMap f t with
      | error e =>
        rw [ht] at h
        exact Except.noConfusion h
      | ok bs =>
        rw [ht] at h
        cases h
        intro i h1 h2
        cases i with
        | zero => simpa using hf
        | succ n => exact ih bs ht n (by simpa using h1) (by simpa using h2)

theorem exceptMap_error_mem {α β ε : Type} (f : α → Except ε β) (l : List α)
    (e : ε) (h : exceptMap f l = Except.error e) :
    ∃ a ∈ l, f a = Except.error e := by
  induction l with
  | nil => exact Except.noConfusion h
  | cons a t ih =>
    unfold exceptMap at h
    cases hf : f a with
    | error e2 =>
      rw [hf] at h
      injection h with he
      exact ⟨a, List.mem_cons_self a t, he ▸ hf⟩
    | ok b =>
      rw [hf] at h
      cases ht : exceptMap f t with
      | error e2 =>
        rw [ht] at h
        injection h with he
        obtain ⟨x, hx, hfx⟩ := ih (he ▸ ht)
        exact ⟨x, List.mem_cons_of_mem a hx, hfx⟩
      | ok bs =>
        rw [ht] at h
        exact Except.noConfusion h

theorem exceptMap_isOk {α β ε : Type} (f : α → Except ε β) (l : List α)
    (h : ∀ a ∈ l, (f a).isOk = true) : (exceptMap f l).isOk = true := by
  induction l with
  | nil => rfl
  | cons a t ih =>
    unfold exceptMap
    cases hf : f a with
    | error e =>
      have := h a (List.mem_cons_self a t)
      rw [hf] at this
      exact Bool.noConfusion this
    | ok b =>
      cases ht : exceptMap f t with
      | error e =>
        have := ih (fun x hx => h x (List.mem_cons_of_mem a hx))
        rw [ht] at this
        exact Bool.noConfusion this
      | ok bs => rfl

theorem hourStep_error_shape (cols : List String) (r : ColumnRoles)
    (row : List Value) (e : PrepError)
    (h : hourStep cols r row = Except.error e) :
    ∃ s, e = PrepError.valueError s := by
  unfold hourStep at h
  by_cases htc : r.time_col ∈ cols
  · rw [if_pos htc] at h
    cases hx : extractHour (cellAt cols row r.time_col) with
    | ok n =>
      rw [hx] at h
      exact Except.noConfusion h
    | error s =>
      rw [hx] at h
      injection h with he
      exact ⟨s, he.symm⟩
  · rw [if_neg htc] at h
    exact Except.noConfusion h

theorem enrichRow_error_shape (cols : List String) (r : ColumnRoles)
    (row : List Value) (e : PrepError)
    (h : enrichRow cols r row = Except.error e) :
    ∃ s, e = PrepError.valueError s := by
  unfold enrichRow at h
  cases hs : hourStep cols r row with
  | error e2 =>
    rw [hs] at h
    injection h with he
    exact hourStep_error_shape cols r row e (he ▸ hs)
  | ok n =>
    rw [hs] at h
    exact Except.noConfusion h

theorem enrichRow_isOk_of_hour (cols : List String) (r : ColumnRoles)
    (row : List Value) (hh : (hourStep cols r row).isOk = true) :
    (enrichRow cols r row).isOk = true := by
  unfold enrichRow
  cases hs : hourStep cols r row with
  | error e =>
    rw [hs] at hh
    exact Bool.noConfusion hh
  | ok n => rfl

/-! ## Claims about Feature Deriver totality (C8) and its error contract (C9) -/

/-- A one-row table whose Time value has a colon but a non-integer text
before it. -/
def badTimeTable : RawTable :=
  { columns := ["Date", "Time", "Location", "Category", "Total"]
    rows := [[Value.str "01/01/2024", Value.str "ab:00", Value.str "L",
              Value.str "C", Value.num 5]] }

/-- Claim C8 counterexample: on a table whose single row has Time value
`ab:00` the Feature Deriver produces no output table at all — the hour
lambda raises `ValueError`, the preprocessing block halts — so the output
does not have the same number of rows as the input for every table. -/
theorem deriver_rowcount_cex :
    enrich badTimeTable (resolve badTimeTable.columns) =
      Except.error (PrepError.valueError "ValueError") :=
  rfl

/-- Claim C8 as amended: whenever enrichment succeeds, the output has
exactly one enriched row per input row, in order (so no row is dropped,
even when its date fails to parse or its time value lacks a colon); a
Time value whose text before a colon is not an integer aborts enrichment
wholesale instead. -/
theorem deriver_rowcount_amended (t : RawTable) (r : ColumnRoles)
    (out : List EnrichedRow) (h : enrich t r = Except.ok out) :
    out.length = t.rows.length ∧
    ∀ (i : Nat) (h1 : i < t.rows.length) (h2 : i < out.length),
      enrichRow t.columns r (t.rows.get ⟨i, h1⟩) = Except.ok (out.get ⟨i, h2⟩) := by
  unfold enrich at h
  by_cases hd : r.date_col ∈ t.columns
  · rw [if_pos hd] at h
    exact ⟨exceptMap_ok_length _ _ _ h, exceptMap_ok_get _ _ _ h⟩
  · rw [if_neg hd] at h
    exact Except.noConfusion h

/-- A one-row table whose date does not parse and whose time has no
colon; enrichment still succeeds and retains the row. -/
def messyTable : RawTable :=
  { columns := ["Date", "Time", "Location", "Category", "Total"]
    rows := [[Value.str "nodate", Value.str "morning", Value.str "L",
              Value.str "C", Value.num 7]] }

/-- Witness for the amended C8: the row with unparseable date and
colon-free time is retained, with null parsed date and default hour. -/
theorem deriver_rowcount_amended_wit :
    ((enrich messyTable (resolve messyTable.columns)).toOption.getD []).length
      = messyTable.rows.length :=
  (deriver_rowcount_amended messyTable (resolve messyTable.columns)
    ((enrich messyTable (resolve messyTable.columns)).toOption.getD []) rfl).1

/-- A one-row table whose Time value has a colon but a non-integer text
before it, used to exhibit a fatal per-value hour failure. -/
def fatalHourTable : RawTable :=
  { columns := ["Date", "Time", "Location", "Category", "Total"]
    rows := [[Value.str "02/02/2024", Value.str "xx:30", Value.str "L",
              Value.str "C", Value.num 9]] }

/-- Claim C9 counterexample: the resolved Date column is present, yet
enrichment fails — with a `ValueError` from the hour parse, not a
`MissingDateColumn` error — so a per-value hour parse failure is fatal,
contradicting the claim that such failures only degrade to defaults. -/
theorem prep_error_cex :
    (resolve fatalHourTable.columns).date_col ∈ fatalHourTable.columns ∧
    enrich fatalHourTable (resolve fatalHourTable.columns) =
      Except.error (PrepError.valueError "ValueError") :=
  ⟨by decide, rfl⟩

/-- Claim C9 as amended: the Feature Deriver fails with a
`MissingDateColumn` preparation error exactly when the role-resolved Date
column is absent from the table; date-parse failures are never fatal
(enrichment succeeds whenever every hour extraction succeeds, and always
when the Time column is absent), but an hour value whose text before a
colon is not an integer is fatal, raising a `ValueError` instead. -/
theorem prep_error_amended (t : RawTable) (r : ColumnRoles) :
    ((∃ c, enrich t r = Except.error (PrepError.missingDateColumn c)) ↔
      r.date_col ∉ t.columns) ∧
    (r.date_col ∈ t.columns → r.time_col ∉ t.columns →
      (enrich t r).isOk = true) ∧
    (r.date_col ∈ t.columns →
      (∀ row ∈ t.rows, (extractHour (cellAt t.columns row r.time_col)).isOk = true) →
      (enrich t r).isOk = true) := by
  refine ⟨⟨?_, ?_⟩, ?_, ?_⟩
  · rintro ⟨c, hc⟩ hd
    unfold enrich at hc
    rw [if_pos hd] at hc
    obtain ⟨a, _, ha⟩ := exceptMap_error_mem _ _ _ hc
    obtain ⟨s, hs⟩ := enrichRow_error_shape _ _ _ _ ha
    exact PrepError.noConfusion hs
  · intro hd
    refine ⟨r.date_col, ?_⟩
    unfold enrich
    rw [if_neg hd]
  · intro hd htc
    unfold enrich
    rw [if_pos hd]
    apply exceptMap_isOk
    intro row _
    apply enrichRow_isOk_of_hour
    unfold hourStep
    rw [if_neg htc]
    rfl
  · intro hd hall
    unfold enrich
    rw [if_pos hd]
    apply exceptMap_isOk
    intro row hrow
    apply enrichRow_isOk_of_hour
    unfold hourStep
    by_cases htc : r.time_col ∈ t.columns
    · rw [if_pos htc]
      have := hall row hrow
      cases hx : extractHour (cellAt t.columns row r.time_col) with
      | ok n => rfl
      | error e =>
        rw [hx] at this
        exact Bool.noConfusion this
    · rw [if_neg htc]
      rfl

/-- Witness for the amended C9 at a concrete table: the date column of
`messyTable` (with unparseable date and colon-free safe time value) is
present and enrichment succeeds; a table without the resolved date column
errors with `MissingDateColumn`. -/
theorem prep_error_amended_wit :
    (enrich fatalHourTable ⟨"Nope", "Time", "Location", "Category", "Total"⟩).isOk
        = false ∧
    enrich fatalHourTable ⟨"Nope", "Time", "Location", "Category", "Total"⟩ =
      Except.error (PrepError.missingDateColumn "Nope") ∧
    (enrich messyTable (resolve messyTable.columns)).isOk = true := by
  refine ⟨rfl, rfl, ?_⟩
  exact (prep_error_amended messyTable (resolve messyTable.columns)).2.2
    (by decide) (by decide)

/-! ## Claim C10: null parsed dates are dropped by the daily groupby -/

theorem filterMap_filter_isSome {α β : Type} (f : α → Option β) (l : List α) :
    (l.filter (fun a => (f a).isSome)).filterMap f = l.filterMap f := by
  induction l with
  | nil => rfl
  | cons a t ih =>
    cases hf : f a with
    | none => simp [List.filter_cons, List.filterMap_cons, hf, ih]
    | some b => simp [List.filter_cons, List.filterMap_cons, hf, ih]

theorem filter_eq_some_filter_isSome {α β : Type} [DecidableEq β]
    (f : α → Option β) (l : List α) (k : β) :
    (l.filter (fun a => (f a).isSome)).filter (fun a => f a == some k) =
      l.filter (fun a => f a == some k) := by
  rw [List.filter_filter]
  apply List.filter_congr
  intro a _
  cases hf : f a <;> simp [hf]

theorem locFiltered_filter_comm (cols : List String) (r : ColumnRoles)
    (lf : LocFilter) (p : EnrichedRow → Bool) (rows : List EnrichedRow) :
    locFiltered cols r lf (rows.filter p) = (locFiltered cols r lf rows).filter p := by
  cases lf with
  | all => rfl
  | only v => exact List.filter_comm _ _ _

theorem filterDaily_filter_comm (cols : List String) (r : ColumnRoles)
    (f : FilterState) (p : EnrichedRow → Bool) (rows : List EnrichedRow) :
    filterDaily cols r f (rows.filter p) = (filterDaily cols r f rows).filter p := by
  unfold filterDaily
  rw [locFiltered_filter_comm]
  exact List.filter_comm _ _ _

theorem mem_of_mem_locFiltered (cols : List String) (r : ColumnRoles)
    (lf : LocFilter) (rows : List EnrichedRow) (er : EnrichedRow)
    (h : er ∈ locFiltered cols r lf rows) : er ∈ rows := by
  cases lf with
  | all => exact h
  | only v => exact (List.mem_filter.mp h).1

theorem mem_of_mem_filterDaily (cols : List String) (r : ColumnRoles)
    (f : FilterState) (rows : List EnrichedRow) (er : EnrichedRow)
    (h : er ∈ filterDaily cols r f rows) : er ∈ rows :=
  mem_of_mem_locFiltered cols r f.location rows er (List.mem_filter.mp h).1

/-- Claim C10: rows whose Date-role value failed to parse are silently
excluded from `DailyRevenueView` — removing them beforehand changes
nothing, and a table whose rows all have null parsed dates produces an
empty view, their amounts appearing in no daily revenue group. -/
theorem null_dates_excluded (cols : List String) (r : ColumnRoles)
    (f : FilterState) (rows : List EnrichedRow) :
    dailySums cols r f (rows.filter (fun er => er.transaction_date.isSome)) =
      dailySums cols r f rows ∧
    ((∀ er ∈ rows, er.transaction_date = none) → dailySums cols r f rows = []) := by
  constructor
  · unfold dailySums dailyKeys
    rw [filterDaily_filter_comm, filterMap_filter_isSome]
    simp only [filter_eq_some_filter_isSome]
  · intro hall
    unfold dailySums dailyKeys
    have hkeys : (filterDaily cols r f rows).filterMap
        (fun er => er.transaction_date) = [] := by
      rw [List.filterMap_eq_nil_iff]
      intro er her
      exact hall er (mem_of_mem_filterDaily cols r f rows er her)
    rw [hkeys]
    rfl

/-- Witness for C10: a one-row enriched table with a null parsed date
yields an empty daily view. -/
theorem null_dates_excluded_wit :
    dailySums ["Date", "Time", "Location", "Category", "Total"]
      (resolve ["Date", "Time", "Location", "Category", "Total"])
      ⟨LocFilter.all, CatFilter.all, 8⟩
      [{ cells := [Value.null, Value.null, Value.null, Value.null, Value.num 5]
         transaction_date := none
         weekday := none
         dayName := none
         monthName := none
         hour := 8 }] = [] :=
  (null_dates_excluded _ _ _ _).2 (by decide)

/-! ## Ordering of the three aggregate views -/

instance {α : Type} (amt : α → Int) : IsTotal α (amtDesc amt) :=
  ⟨fun a b => le_total (amt b) (amt a)⟩

instance {α : Type} (amt : α → Int) : IsTrans α (amtDesc amt) :=
  ⟨fun _ _ _ h1 h2 => le_trans h2 h1⟩

theorem insertionSort_pairwise_strict {α : Type} (r : α → α → Prop)
    [DecidableRel r] [IsTotal α r] [IsTrans α r]
    (keys : List α) (hnd : keys.Nodup) :
    (List.insertionSort r keys).Pairwise (fun a b => r a b ∧ a ≠ b) :=
  List.Pairwise.and (List.sorted_insertionSort r keys)
    (((List.perm_insertionSort r keys).nodup_iff).mpr hnd)

/-- The ordering guarantees the source actually provides for the three
views: `DailyRevenueView` is strictly ascending in the date key (the
groupby key sort is specified ascending, over distinct keys), and each of
`LocationView` and `CategoryView` is a permutation of its group-sum list
that is non-strictly descending in the summed amount — the contract of
`sort_values(ascending=False)`.  The order among tied sums is left open:
the source's default sort kind is documented as not stable, so no
tie-ordering property holds by contract, and none is asserted here. -/
theorem views_sorted (cols : List String) (r : ColumnRoles)
    (f : FilterState) (rows : List EnrichedRow) :
    (dailySums cols r f rows).Pairwise
      (fun p q => PDate.dle p.1 q.1 ∧ p.1 ≠ q.1) ∧
    (locationSums cols r f rows).Perm
      (groupSumsBy (locCell cols r) (amountOf cols r) (filterBar cols r f rows)) ∧
    (locationSums cols r f rows).Pairwise (fun p q => q.2 ≤ p.2) ∧
    (categorySums cols r f rows).Perm
      (groupSumsBy (catCell cols r) (amountOf cols r) (filterBar cols r f rows)) ∧
    (categorySums cols r f rows).Pairwise (fun p q => q.2 ≤ p.2) := by
  refine ⟨?_, ?_, ?_, ?_, ?_⟩
  · unfold dailySums
    rw [List.pairwise_map]
    exact insertionSort_pairwise_strict PDate.dle _ (List.nodup_dedup _)
  · unfold locationSums
    exact List.perm_insertionSort _ _
  · unfold locationSums
    exact List.sorted_insertionSort (amtDesc (fun p : Value × Int => p.2)) _
  · unfold categorySums
    exact List.perm_insertionSort _ _
  · unfold categorySums
    exact List.sorted_insertionSort (amtDesc (fun p : Value × Int => p.2)) _

/-! ## Claim C4: the round-trip sum over hours -/

theorem sum_filter_or {α : Type} (amt : α → Int) (p q : α → Bool) (l : List α)
    (hdisj : ∀ a, ¬(p a = true ∧ q a = true)) :
    ((l.filter (fun a => p a || q a)).map amt).sum =
      ((l.filter p).map amt).sum + ((l.filter q).map amt).sum := by
  induction l with
  | nil => rfl
  | cons a t ih =>
    by_cases hp : p a <;> by_cases hq : q a
    · exact absurd ⟨hp, hq⟩ (hdisj a)
    · simp [List.filter_cons, hp, hq, ih]
      omega
    · simp [List.filter_cons, hp, hq, ih]
      omega
    · simp [List.filter_cons, hp, hq, ih]

/-- Summing per-key group sums over a duplicate-free key list equals one
sum over the rows whose key occurs in the list: no row is counted twice
(keys are distinct) and no row with a listed key is lost. -/
theorem sum_over_keys {α κ : Type} [BEq κ] [LawfulBEq κ] (keyf : α → κ)
    (amt : α → Int) (ks : List κ) (hnd : ks.Nodup) (l : List α) :
    (ks.map (fun k => ((l.filter (fun a => keyf a == k)).map amt).sum)).sum =
      ((l.filter (fun a => ks.contains (keyf a))).map amt).sum := by
  induction ks with
  | nil => simp
  | cons k ks ih =>
    have hnd2 := List.nodup_cons.mp hnd
    rw [List.map_cons, List.sum_cons, ih hnd2.2,
      ← sum_filter_or amt (fun a => keyf a == k) (fun a => ks.contains (keyf a)) l
        (by
          intro a h
          have hk : keyf a = k := by simpa using h.1
          have hmem : keyf a ∈ ks := List.elem_iff.mp h.2
          exact hnd2.1 (hk ▸ hmem))]
    have hfil : l.filter (fun a => keyf a == k || ks.contains (keyf a)) =
        l.filter (fun a => (k :: ks).contains (keyf a)) := by
      apply List.filter_congr
      intro a _
      rw [List.contains_cons]
    rw [hfil]

/-- With the location filter at `All Locations`, one daily view's total is
the Amount sum of the rows of the selected hour whose parsed date is
non-null. -/
theorem dailySums_total (cols : List String) (r : ColumnRoles) (cf : CatFilter)
    (h : Int) (rows : List EnrichedRow) :
    ((dailySums cols r ⟨LocFilter.all, cf, h⟩ rows).map (fun p => p.2)).sum =
      (((rows.filter (fun er => er.hour == h)).filter
          (fun er => er.transaction_date.isSome)).map (amountOf cols r)).sum := by
  have hfd : filterDaily cols r ⟨LocFilter.all, cf, h⟩ rows =
      rows.filter (fun er => er.hour == h) := rfl
  unfold dailySums dailyKeys
  rw [hfd, List.map_map,
    List.Perm.sum_eq ((List.perm_insertionSort PDate.dle _).map _)]
  simp only [Function.comp_def]
  have hmm2 : ((rows.filter (fun er => er.hour == h)).filterMap
        (fun er => er.transaction_date)).dedup.map
      (fun k => (((rows.filter (fun er => er.hour == h)).filter
          (fun er => er.transaction_date == some k)).map (amountOf cols r)).sum) =
      (((rows.filter (fun er => er.hour == h)).filterMap
        (fun er => er.transaction_date)).dedup.map some).map
      (fun k2 => (((rows.filter (fun er => er.hour == h)).filter
          (fun er => er.transaction_date == k2)).map (amountOf cols r)).sum) := by
    rw [List.map_map]
    rfl
  rw [hmm2, sum_over_keys (fun er => er.transaction_date) (amountOf cols r) _
    ((List.nodup_dedup _).map (Option.some_injective _)) _]
  have hfin : (rows.filter (fun er => er.hour == h)).filter
      (fun er => (((rows.filter (fun er => er.hour == h)).filterMap
          (fun er => er.transaction_date)).dedup.map some).contains
        er.transaction_date) =
      (rows.filter (fun er => er.hour == h)).filter
        (fun er => er.transaction_date.isSome) := by
    apply List.filter_congr
    intro er her
    show List.elem er.transaction_date _ = er.transaction_date.isSome
    rw [List.elem_eq_mem]
    cases htd : er.transaction_date with
    | none => simp
    | some d =>
      have hd : d ∈ ((rows.filter (fun er => er.hour == h)).filterMap
          (fun er => er.transaction_date)).dedup :=
        List.mem_dedup.mpr (List.mem_filterMap.mpr ⟨er, her, htd⟩)
      have hm : some d ∈ (((rows.filter (fun er => er.hour == h)).filterMap
          (fun er => er.transaction_date)).dedup).map some :=
        List.mem_map_of_mem some hd
      simp [hm]
  rw [hfin]

/-- A one-row table whose Date value fails to parse; it is enriched
(retained) but excluded from every daily revenue group. -/
def lostRowTable : RawTable :=
  { columns := ["Date", "Time", "Location", "Category", "Total"]
    rows := [[Value.str "nodate", Value.str "08:00", Value.str "L",
              Value.str "C", Value.num 5]] }

/-- The enriched row the pipeline produces for `lostRowTable`. -/
def lostRow : EnrichedRow :=
  { cells := [Value.str "nodate", Value.str "08:00", Value.str "L",
              Value.str "C", Value.num 5]
    transaction_date := none
    weekday := none
    dayName := none
    monthName := none
    hour := 8 }

/-- Claim C4 counterexample: for the enriched table of `lostRowTable`
(one row, unparseable date, amount 5, hour 8), calling the Aggregator
with `AllLocations` and every distinct hour present (just 8) and summing
all daily totals yields 0, while the Amount sum over the full table is 5
— the null-date row's amount is lost. -/
theorem roundtrip_cex :
    enrich lostRowTable (resolve lostRowTable.columns) = Except.ok [lostRow] ∧
    ([lostRow].map (fun er => er.hour)).dedup = [8] ∧
    ((([lostRow].map (fun er => er.hour)).dedup).map (fun h =>
        ((dailySums lostRowTable.columns (resolve lostRowTable.columns)
            ⟨LocFilter.all, CatFilter.all, h⟩ [lostRow]).map (fun p => p.2)).sum)).sum
      = 0 ∧
    ([lostRow].map (amountOf lostRowTable.columns
        (resolve lostRowTable.columns))).sum = 5 :=
  ⟨rfl, rfl, rfl, rfl⟩

/-- Claim C4 as amended: calling the Aggregator with `AllLocations` and,
in turn, each distinct hour present in the table, and summing all daily
totals across the resulting views, equals the Amount sum over the rows
whose parsed date is non-null — no row is counted twice and no such
row's amount is lost, but rows whose date failed to parse contribute
nothing. -/
theorem roundtrip_amended (cols : List String) (r : ColumnRoles) (cf : CatFilter)
    (rows : List EnrichedRow) :
    (((rows.map (fun er => er.hour)).dedup).map (fun h =>
        ((dailySums cols r ⟨LocFilter.all, cf, h⟩ rows).map (fun p => p.2)).sum)).sum
      =
      ((rows.filter (fun er => er.transaction_date.isSome)).map
        (amountOf cols r)).sum := by
  have h1 : ((rows.map (fun er => er.hour)).dedup).map (fun h =>
      ((dailySums cols r ⟨LocFilter.all, cf, h⟩ rows).map (fun p => p.2)).sum) =
      ((rows.map (fun er => er.hour)).dedup).map (fun h =>
        (((rows.filter (fun er => er.transaction_date.isSome)).filter
            (fun er => er.hour == h)).map (amountOf cols r)).sum) := by
    apply List.map_congr_left
    intro h _
    rw [dailySums_total, List.filter_comm]
  rw [h1, sum_over_keys (fun er => er.hour) (amountOf cols r) _
    (List.nodup_dedup _) _]
  have hx : ∀ er ∈ rows.filter (fun er => er.transaction_date.isSome),
      ((rows.map (fun er => er.hour)).dedup).contains er.hour = true := by
    intro er her
    exact List.elem_iff.mpr (List.mem_dedup.mpr
      (List.mem_map_of_mem _ (List.mem_filter.mp her).1))
  rw [List.filter_eq_self.mpr hx]
